import Mathlib

/-!
# Verification of the Apprise notification orchestrator (`src/apprise/Apprise.py`)

A shallow embedding of the orchestration core of `Apprise.py`: the flattening
and index layer over a mixed direct-target/configuration-container collection
(`__len__`, `__getitem__`, `pop`, `__iter__`), the tag filter (`find`), the
content adaptation performed inside `_notifyall` (TEXT to HTML mapping, the
per-dispatch conversion cache, optional escape decoding), and the dispatch
engine (`notify`, `async_notify`, `_notifyhandler`, `_notifyhandlerasync`,
`add`).

External collaborators that are not part of this repository's source are
modelled from the specification and carry a `Modelled from the spec:` note:
the tag-expression matcher `is_exclusive_match` (from `.utils`), the async
gather/aggregate step (from `.py3compat`), the markdown renderer (third-party
library, threaded through as a function parameter), the escape decoder (the
Python `unicode-escape` codec) and the container's own pop accessor
(`ConfigBase.pop` / `server_pop`).

Python `None`-able values are `Option`s, raised exceptions are `Except`
errors or `Option.none` results, and a Python `dict` used as the per-dispatch
conversion cache is an association list with insert-or-update assignment.
-/

namespace Apprise

/-- The `NotifyFormat` enum from `.common`: the three declared content formats. -/
inductive NotifyFormat where
  | text
  | html
  | markdown
deriving DecidableEq, Repr

/-- A notification plugin (a `NotifyBase` instance) as the orchestrator sees
it: its tag set (`server.tags`), its declared content format
(`server.notify_format`), the fixed outcome of one send to it during the
dispatch under study (`some b` when `server.notify(...)` returns `b`,
`none` when the call raises an exception), and the `asset.async_mode` flag
consulted by `_notifyhandlerasync`. -/
structure Server where
  tags : List String
  notify_format : NotifyFormat
  outcome : Option Bool
  async_mode : Bool
deriving DecidableEq, Repr

/-- One element of `self.servers`: either a direct plugin instance or a
configuration container (`ConfigBase` / `AppriseConfig`) whose `servers()`
call expands, within one operation, to the given ordered list. -/
inductive Entry where
  | direct (s : Server)
  | config (servers : List Server)
deriving DecidableEq, Repr

/-- The expansion used by `find`, `__iter__` and `__len__`: a direct entry
stands for itself (`[entry]`), a container yields `entry.servers()`. -/
def Entry.expandServers : Entry → List Server
  | Entry.direct s => [s]
  | Entry.config ss => ss

/-- Embeds `Apprise.__len__`: sums 1 per direct entry and `len(s.servers())` per
configuration entry; containers are never counted themselves. -/
def collLen (c : List Entry) : Nat :=
  (c.map (fun e => match e with
    | Entry.direct _ => 1
    | Entry.config ss => ss.length)).sum

/-- Embeds `Apprise.__iter__`: chains direct entries and expanded containers in
collection order. -/
def collIter (c : List Entry) : List Server :=
  (c.map Entry.expandServers).flatten

/-- Modelled from the spec: the tag expression accepted by `find`
(`is_exclusive_match` lives in `.utils`, outside `src/`). Normal form per the
spec: the match-all sentinel, or an ordered list of OR-groups, each an AND-set
of required tags; a group is a first required tag together with the remaining
required tags (the spec's single-tag form is a one-tag group, its OR-list form
is a list of one-tag groups, its tuple form is a multi-tag group). -/
inductive TagExpr where
  | matchAll
  | expr (groups : List (String × List String))
deriving DecidableEq, Repr

/-- Modelled from the spec: one OR-group matches when all of its required
tags are present in the candidate's tag set. -/
def groupMatch (g : String × List String) (tags : List String) : Bool :=
  tags.contains g.1 && g.2.all (fun t => tags.contains t)

/-- Modelled from the spec: `is_exclusive_match` from `.utils` (not under
`src/`). The sentinel matches unconditionally; otherwise a candidate matches
when some OR-group's tags are all present in its tag set. -/
def is_exclusive_match (logic : TagExpr) (data : List String) : Bool :=
  match logic with
  | TagExpr.matchAll => true
  | TagExpr.expr gs => gs.any (fun g => groupMatch g data)

/-- Embeds `Apprise.find`: walks `self.servers`, expands each configuration entry
via `servers()`, and yields every server passing `is_exclusive_match` against
the tag expression, in order. -/
def find (c : List Entry) (tag : TagExpr) : List Server :=
  match c with
  | [] => []
  | e :: rest =>
      (e.expandServers.filter (fun server => is_exclusive_match tag server.tags))
        ++ find rest tag

/-- Whether a character list starts with a (possibly empty) run of carriage
returns followed by a line feed, i.e. whether the regex `\r*\n` matches at
this position. -/
def startsCRrunLF : List Char → Bool
  | [] => false
  | c :: rest =>
      if c = '\n' then true
      else if c = '\r' then startsCRrunLF rest
      else false

/-- The second pass of the TEXT-to-HTML conversion:
`re.sub(r'\r*\n', '<br/>\r\n', ...)`. Each maximal run matched by `\r*\n`
is replaced by `<br/>` followed by CRLF; a carriage return not followed by
such a run is kept. -/
def replaceNewlines : List Char → List Char
  | [] => []
  | c :: rest =>
      if c = '\n' then "<br/>\r\n".data ++ replaceNewlines rest
      else if c = '\r' then
        (if startsCRrunLF (c :: rest) then replaceNewlines rest
         else c :: replaceNewlines rest)
      else c :: replaceNewlines rest

/-- The single substitution pass `re_table.sub(lambda x: re_map[x.group()],
body)` of `_notifyall`. The `re_map` keys are the raw strings `&`, space,
backslash-t (two characters: `r'\t'`), `>`, `<`; `re.escape` keeps them
literal and the alternation is compiled with `IGNORECASE`, whose only cased
key letter is the `t`. So at each position, in key order: `&` becomes
`&amp;`, a space becomes `&nbsp;`, the literal two-character sequence
backslash-t becomes three `&nbsp;`, the two-character sequence backslash-T
matches the pattern but misses the `re_map` lookup and raises `KeyError`
(`none` here, aborting the conversion), `>` becomes `&gt;`, `<` becomes
`&lt;`; any other character — a real tab included, and a backslash not
followed by `t`/`T` — is kept and scanning resumes at the next
character. -/
def t2hScan : List Char → Option (List Char)
  | [] => some []
  | c :: rest =>
      if c = '&' then Option.map (fun l => "&amp;".data ++ l) (t2hScan rest)
      else if c = ' ' then Option.map (fun l => "&nbsp;".data ++ l) (t2hScan rest)
      else if c = '\\' then
        match rest with
        | c2 :: rest2 =>
            if c2 = 't' then
              Option.map (fun l => "&nbsp;&nbsp;&nbsp;".data ++ l) (t2hScan rest2)
            else if c2 = 'T' then none
            else Option.map (fun l => c :: l) (t2hScan (c2 :: rest2))
        | [] => Option.map (fun l => c :: l) (t2hScan [])
      else if c = '>' then Option.map (fun l => "&gt;".data ++ l) (t2hScan rest)
      else if c = '<' then Option.map (fun l => "&lt;".data ++ l) (t2hScan rest)
      else Option.map (fun l => c :: l) (t2hScan rest)

/-- The full TEXT-to-HTML conversion of `_notifyall`: the single-pass
`re_map` substitution, then the line-terminator replacement; `none` is the
`KeyError` raised by the lookup on a backslash-T match, which in Python
propagates out of the dispatch. -/
def textToHtml (body : String) : Option String :=
  Option.map (fun l => String.mk (replaceNewlines l)) (t2hScan body.data)

/-- The substitution table as the specification words it — a character map
sending each tab character (not the two-character sequence) to three
`&nbsp;`, with the other four mappings — followed by the same
line-terminator replacement. This is the spec-side description only, kept to
compare against the program's `t2hScan`, which it does not match. -/
def specT2hSub (ch : Char) : List Char :=
  if ch = '&' then "&amp;".data
  else if ch = ' ' then "&nbsp;".data
  else if ch = '\t' then "&nbsp;&nbsp;&nbsp;".data
  else if ch = '>' then "&gt;".data
  else if ch = '<' then "&lt;".data
  else [ch]

/-- The full TEXT-to-HTML conversion as the specification describes it,
built on `specT2hSub`: the spec-side description only. -/
def specTextToHtml (body : String) : String :=
  String.mk (replaceNewlines ((body.data.map specT2hSub).flatten))

/-- The conversion-branch selection of `_notifyall`: MARKDOWN source to an
HTML target runs the external markdown renderer `md`; TEXT source to an HTML
target runs `textToHtml`; every other pairing stores the body unchanged.
`body_format` is the value after the asset default has been applied
(`none` when neither the caller nor the asset set one). When `textToHtml`
raises (`none`, a backslash-T in the body), Python aborts the whole dispatch
with the `KeyError`; that abort has no counterpart in this total function,
which falls back to the unconverted body — the raising inputs are exactly
characterised by `t2hScan`, and no theorem relies on the fallback value. -/
def convertBody (md : String → String) (body_format : Option NotifyFormat)
    (fmt : NotifyFormat) (body : String) : String :=
  if body_format = some NotifyFormat.markdown ∧ fmt = NotifyFormat.html then md body
  else if body_format = some NotifyFormat.text ∧ fmt = NotifyFormat.html then
    (textToHtml body).getD body
  else body

/-- Modelled from the spec: the escape decoding step
`.encode('ascii', 'backslashreplace').decode('unicode-escape')` uses the
Python codec machinery, which is outside this repository. Per the spec it
turns literal backslash-escape sequences into real control characters;
modelled here for the escapes `\n`, `\r`, `\t` and `\\`, any other
backslash-led pair being kept as in the codec. -/
def decodeEscapes : List Char → List Char
  | [] => []
  | '\\' :: c :: rest =>
      if c = 'n' then '\n' :: decodeEscapes rest
      else if c = 'r' then '\r' :: decodeEscapes rest
      else if c = 't' then '\t' :: decodeEscapes rest
      else if c = '\\' then '\\' :: decodeEscapes rest
      else '\\' :: decodeEscapes (c :: rest)
  | c :: rest => c :: decodeEscapes rest

/-- String form of `decodeEscapes`. -/
def decode (s : String) : String :=
  String.mk (decodeEscapes s.data)

/-- Membership test of the Python dict used as `conversion_map`. -/
def cmLookup : List (NotifyFormat × String) → NotifyFormat → Option String
  | [], _ => none
  | (f, v) :: rest, g => if f = g then some v else cmLookup rest g

/-- Assignment `conversion_map[fmt] = v` on the Python dict: updates the
existing binding or appends a new one. -/
def cmSet : List (NotifyFormat × String) → NotifyFormat → String → List (NotifyFormat × String)
  | [], g, v => [(g, v)]
  | (f, w) :: rest, g, v =>
      if f = g then (g, v) :: rest else (f, w) :: cmSet rest g v

/-- One yielded element of the `_notifyall` generator: the server to notify
and the keyword arguments handed to the handler (`body`, `title`,
`notify_type`; the attachment bundle is forwarded unchanged and carries no
content adaptation, so it is not tracked). -/
structure Call where
  server : Server
  body : String
  title : String
  notify_type : String
deriving DecidableEq, Repr

/-- The `if server.notify_format not in conversion_map:` block of the
`_notifyall` loop body: seed the cache for an unseen declared format with the
converted body, leave it untouched otherwise. -/
def convStage (md : String → String) (body : String)
    (bf : Option NotifyFormat) (cmap : List (NotifyFormat × String))
    (fmt : NotifyFormat) : List (NotifyFormat × String) :=
  if cmLookup cmap fmt = none then
    cmSet cmap fmt (convertBody md bf fmt body)
  else cmap

/-- The `if interpret_escapes:` block of the `_notifyall` loop body, applied
to the cache: re-assign the cached entry for this server's format to its
escape-decoded value (the entry is present after `convStage`). -/
def escStage (ie : Bool) (cmap : List (NotifyFormat × String))
    (fmt : NotifyFormat) : List (NotifyFormat × String) :=
  if ie then cmSet cmap fmt (decode ((cmLookup cmap fmt).getD "")) else cmap

/-- The per-server loop of `_notifyall` over the matched servers: seed the
conversion cache for an unseen declared format (`convStage`), then — when
escape interpretation is on — re-assign the cached entry for this server's
format to its escape-decoded value (`escStage`) and re-decode the non-empty
title, and finally yield the call built from the cached body for this
format. -/
def notifyLoop (md : String → String) (body : String)
    (body_format : Option NotifyFormat) (interpret_escapes : Bool)
    (notify_type : String) :
    List Server → List (NotifyFormat × String) → String → List Call
  | [], _, _ => []
  | server :: rest, cmap, title =>
      let cmap2 :=
        escStage interpret_escapes
          (convStage md body body_format cmap server.notify_format)
          server.notify_format
      let title2 :=
        if interpret_escapes ∧ title ≠ "" then decode title else title
      { server := server,
        body := (cmLookup cmap2 server.notify_format).getD "",
        title := title2,
        notify_type := notify_type }
        :: notifyLoop md body body_format interpret_escapes notify_type rest cmap2 title2

/-- Embeds `Apprise._notifyall`, materialised as `list(...)` does: raises
`TypeError` (the `Except.error`) when the collection expands to zero servers
or when both title and body are empty — both checks run before any call is
produced — and otherwise yields one call per matched server in filter order,
starting from an empty conversion cache. -/
def _notifyall (md : String → String) (c : List Entry) (body title : String)
    (notify_type : String) (body_format : Option NotifyFormat) (tag : TagExpr)
    (interpret_escapes : Bool) : Except Unit (List Call) :=
  if collLen c = 0 then Except.error ()
  else if title = "" ∧ body = "" then Except.error ()
  else Except.ok
    (notifyLoop md body body_format interpret_escapes notify_type
      (find c tag) [] title)

/-- Embeds `Apprise._notifyhandler`: runs the server's blocking send and returns its
boolean; any raised exception (`outcome = none`) is caught and recorded as
`false`. -/
def _notifyhandler (server : Server) : Bool :=
  match server.outcome with
  | some b => b
  | none => false

/-- Embeds `Apprise._notifyhandlerasync`: with `asset.async_mode` the server's
cooperative `async_notify` coroutine is scheduled (modelled from the spec:
its fault is likewise isolated as that server's `false` by the gather step);
otherwise the blocking `_notifyhandler` result is wrapped. -/
def _notifyhandlerasync (server : Server) : Bool :=
  if server.async_mode then server.outcome.getD false
  else _notifyhandler server

/-- Modelled from the spec: `py3compat.asyncio.notify` (not under `src/`)
joins all scheduled coroutines and aggregates exactly as the sequential path:
`True` only if every gathered result is `True`. -/
def asyncioNotify (results : List Bool) : Bool :=
  results.all id

/-- Embeds `Apprise.notify`, sequential strategy: materialise `_notifyall` with the
blocking handler; a `TypeError` from the generator yields `False`
(`some false`); a non-empty result list aggregates with `all`; an empty one
yields `None` (`Option.none`). -/
def notify (md : String → String) (c : List Entry) (body title : String)
    (notify_type : String) (body_format : Option NotifyFormat) (tag : TagExpr)
    (interpret_escapes : Bool) : Option Bool :=
  match _notifyall md c body title notify_type body_format tag interpret_escapes with
  | Except.error _ => some false
  | Except.ok calls =>
      if 0 < calls.length then
        some (calls.all (fun call => _notifyhandler call.server))
      else none

/-- Embeds `Apprise.async_notify`, concurrent strategy: materialise `_notifyall`
with the asynchronous handler; a `TypeError` yields `False`; a non-empty
coroutine list is gathered by `asyncioNotify`; an empty one yields `None`. -/
def async_notify (md : String → String) (c : List Entry) (body title : String)
    (notify_type : String) (body_format : Option NotifyFormat) (tag : TagExpr)
    (interpret_escapes : Bool) : Option Bool :=
  match _notifyall md c body title notify_type body_format tag interpret_escapes with
  | Except.error _ => some false
  | Except.ok calls =>
      if 0 < calls.length then
        some (asyncioNotify (calls.map (fun call => _notifyhandlerasync call.server)))
      else none

/-- Python list subscription `l[i]`: a negative index is taken from the end;
an index out of range on either side raises `IndexError` (`none`). Used by
`__getitem__` when it delegates into a container's expanded list. -/
def pyIndex {α : Type} (l : List α) (i : Int) : Option α :=
  let j := if i < 0 then i + l.length else i
  if 0 ≤ j then l.get? j.toNat else none

/-- Python `list.pop(i)` semantics (modelled from the spec for the
container's own `indexPop` accessor, `ConfigBase.pop` / `server_pop`, which
is outside `src/`): remove and return the element at `i`, negative indices
from the end, out of range raising `IndexError`. -/
def pyPop {α : Type} (l : List α) (i : Int) : Option (α × List α) :=
  let j := if i < 0 then i + l.length else i
  if 0 ≤ j then
    match l.get? j.toNat with
    | some x => some (x, l.eraseIdx j.toNat)
    | none => none
  else none

/-- The index-resolution walk of `Apprise.__getitem__`, with `prev_offset`
threaded exactly as in the source: a non-empty container advances the offset
by its length and, once `offset >= index`, delegates to the container list at
`index` (when `prev_offset == -1`) or `index - prev_offset - 1`; an empty
container leaves the offset untouched; a direct entry advances the offset by
one and matches on equality; falling off the end raises `IndexError`. -/
def getitemAux : List Entry → Int → Int → Option Server
  | [], _, _ => none
  | Entry.config ss :: rest, index, prev_offset =>
      if 0 < ss.length then
        let offset := prev_offset + ss.length
        if index ≤ offset then
          pyIndex ss (if prev_offset = -1 then index else index - prev_offset - 1)
        else getitemAux rest index offset
      else getitemAux rest index prev_offset
  | Entry.direct s :: rest, index, prev_offset =>
      let offset := prev_offset + 1
      if offset = index then some s else getitemAux rest index offset

/-- Embeds `Apprise.__getitem__`. -/
def getitem (c : List Entry) (index : Int) : Option Server :=
  getitemAux c index (-1)

/-- The walk of `Apprise.pop`, mirroring `getitemAux` but removing the found
server: delegation into a container uses the container's own pop accessor,
and a matched direct entry is removed from the collection. -/
def popAux : List Entry → Int → Int → Option (Server × List Entry)
  | [], _, _ => none
  | Entry.config ss :: rest, index, prev_offset =>
      if 0 < ss.length then
        let offset := prev_offset + ss.length
        if index ≤ offset then
          match pyPop ss (if prev_offset = -1 then index else index - prev_offset - 1) with
          | some (x, ss2) => some (x, Entry.config ss2 :: rest)
          | none => none
        else
          match popAux rest index offset with
          | some (x, rest2) => some (x, Entry.config ss :: rest2)
          | none => none
      else
        match popAux rest index prev_offset with
        | some (x, rest2) => some (x, Entry.config ss :: rest2)
        | none => none
  | Entry.direct s :: rest, index, prev_offset =>
      let offset := prev_offset + 1
      if offset = index then some (s, rest)
      else
        match popAux rest index offset with
        | some (x, rest2) => some (x, Entry.direct s :: rest2)
        | none => none

/-- Embeds `Apprise.pop`. -/
def pop (c : List Entry) (index : Int) : Option (Server × List Entry) :=
  popAux c index (-1)

/-- One element of the batch handed to `Apprise.add` after the initial
argument normalisation: an already-instantiated plugin or configuration
object (appended as-is), a string/dict descriptor together with the result
of `Apprise.instantiate` on it (`some` a plugin on success, `none` when the
URL is malformed, its schema unknown, or construction rejected it — in each
case `instantiate` returns `None` with exceptions suppressed), or a value of
an invalid type. -/
inductive Descriptor where
  | preloaded (e : Entry)
  | url (r : Option Server)
  | invalid
deriving DecidableEq, Repr

/-- The entry a descriptor contributes to the collection, if any. -/
def resolveDescriptor : Descriptor → Option Entry
  | Descriptor.preloaded e => some e
  | Descriptor.url (some s) => some (Entry.direct s)
  | Descriptor.url none => none
  | Descriptor.invalid => none

/-- One iteration of the `Apprise.add` loop over the running
`(return_status, self.servers)` state: instances are appended directly; an
invalid type or a failed instantiation flips the return status to `False`
and continues with the rest of the batch; a successful instantiation is
appended. -/
def addStep (acc : Bool × List Entry) (d : Descriptor) : Bool × List Entry :=
  match d with
  | Descriptor.preloaded e => (acc.1, acc.2 ++ [e])
  | Descriptor.url (some s) => (acc.1, acc.2 ++ [Entry.direct s])
  | Descriptor.url none => (false, acc.2)
  | Descriptor.invalid => (false, acc.2)

/-- The per-descriptor loop of `Apprise.add`: runs `addStep` across the
batch starting from status `True` and the current server list, returning the
final status and server list. -/
def addServers (servers : List Entry) (batch : List Descriptor) : Bool × List Entry :=
  batch.foldl addStep (true, servers)

/-! ## Witness fixtures: concrete servers and collections used to instantiate
the theorems below on closed inputs. -/

/-- A tagged text-format plugin whose send succeeds. -/
def svA : Server :=
  { tags := ["x"], notify_format := NotifyFormat.text,
    outcome := some true, async_mode := false }

/-- An untagged text-format plugin whose send succeeds. -/
def svB : Server :=
  { tags := [], notify_format := NotifyFormat.text,
    outcome := some true, async_mode := true }

/-- A tagged HTML-format plugin whose send succeeds. -/
def svHtml : Server :=
  { tags := ["x"], notify_format := NotifyFormat.html,
    outcome := some true, async_mode := false }

/-- A tagged text-format plugin whose send raises. -/
def svFault : Server :=
  { tags := ["x"], notify_format := NotifyFormat.text,
    outcome := none, async_mode := false }

/-- Iterated application of the escape decoder, `n` times. -/
def decodeN : Nat → String → String
  | 0, s => s
  | k + 1, s => decode (decodeN k s)

/-- The observable behaviour of the escape-interpreting `_notifyall` loop,
stated directly: `m` counts, per declared format, how many matched servers
of that format have already been processed. Each server receives the
converted body decoded once per same-format server processed so far
(including itself), and the running title is decoded once more on every
iteration with a non-empty title. -/
def loopSpec (conv : NotifyFormat → String) (nt : String) :
    (NotifyFormat → Nat) → String → List Server → List Call
  | _, _, [] => []
  | m, t, s :: rest =>
      let k := m s.notify_format + 1
      let t2 := if t ≠ "" then decode t else t
      { server := s, body := decodeN k (conv s.notify_format),
        title := t2, notify_type := nt }
        :: loopSpec conv nt
            (fun f => if f = s.notify_format then k else m f) t2 rest

/-! ## Helper lemmas -/

/-- The filter `find` applies to the flattened collection. -/
theorem find_eq_filter (c : List Entry) (tag : TagExpr) :
    find c tag = (collIter c).filter (fun server => is_exclusive_match tag server.tags) := by
  induction c with
  | nil => rfl
  | cons e rest ih =>
      simp [find, collIter, List.filter_append, ih]

/-- The `_notifyall` loop produces exactly one call per matched server, in
order, carrying that server. -/
theorem notifyLoop_map_server (md : String → String) (body : String)
    (bf : Option NotifyFormat) (ie : Bool) (nt : String) :
    ∀ (matched : List Server) (cmap : List (NotifyFormat × String)) (title : String),
      (notifyLoop md body bf ie nt matched cmap title).map Call.server = matched := by
  intro matched
  induction matched with
  | nil => intro cmap title; rfl
  | cons s rest ih => intro cmap title; simp [notifyLoop, ih]

/-- Running `all` over a mapped list tests the composite predicate. -/
theorem all_comp_map {α β : Type} (f : α → β) (p : β → Bool) :
    ∀ (l : List α), (l.map f).all p = l.all (fun x => p (f x)) := by
  intro l
  induction l with
  | nil => rfl
  | cons a t ih => simp [ih]

/-- The handler result is `true` exactly when the send returned `True`. -/
theorem notifyhandler_eq_true (s : Server) :
    _notifyhandler s = true ↔ s.outcome = some true := by
  unfold _notifyhandler
  cases h : s.outcome with
  | none => simp
  | some b => cases b <;> simp

/-- Under both dispatch preconditions, `notify` reduces to the tri-state
aggregation over the matched servers. -/
theorem notify_eq_aggregate (md : String → String) (c : List Entry)
    (body title nt : String) (bf : Option NotifyFormat) (tag : TagExpr) (ie : Bool)
    (h1 : collLen c ≠ 0) (h2 : ¬(title = "" ∧ body = "")) :
    notify md c body title nt bf tag ie
      = if find c tag = [] then none
        else some ((find c tag).all _notifyhandler) := by
  unfold notify _notifyall
  rw [if_neg h1, if_neg h2]
  have hmap := notifyLoop_map_server md body bf ie nt (find c tag) [] title
  have hlen : (notifyLoop md body bf ie nt (find c tag) [] title).length
      = (find c tag).length := by
    conv_rhs => rw [← hmap]
    simp
  by_cases hfe : find c tag = []
  · simp only [hfe, List.length_nil] at hlen
    simp [hfe, List.length_eq_zero.mp hlen]
  · have hpos : 0 < (notifyLoop md body bf ie nt (find c tag) [] title).length := by
      rw [hlen]
      exact List.length_pos.mpr hfe
    simp only [hpos, if_pos, if_neg hfe]
    congr 1
    rw [← all_comp_map Call.server _notifyhandler, hmap]

/-- The walk `getitemAux` over a collection of direct entries only never matches a
negative index: the running offset starts at `prev + 1 ≥ 0`. -/
theorem getitemAux_direct_neg (ss : List Server) :
    ∀ (prev i : Int), i < 0 → -1 ≤ prev →
      getitemAux (ss.map Entry.direct) i prev = none := by
  induction ss with
  | nil => intros; rfl
  | cons s rest ih =>
      intro prev i hi hprev
      simp only [List.map_cons, getitemAux]
      rw [if_neg (by omega)]
      exact ih (prev + 1) i hi (by omega)

/-- The walk `popAux` over a collection of direct entries only never matches a
negative index. -/
theorem popAux_direct_neg (ss : List Server) :
    ∀ (prev i : Int), i < 0 → -1 ≤ prev →
      popAux (ss.map Entry.direct) i prev = none := by
  induction ss with
  | nil => intros; rfl
  | cons s rest ih =>
      intro prev i hi hprev
      simp only [List.map_cons, popAux]
      rw [if_neg (by omega), ih (prev + 1) i hi (by omega)]

/-- Characterization of the `add` loop: the final status is the conjunction
of the per-descriptor resolutions and the appended entries are exactly the
successful ones, in batch order. -/
theorem addStep_foldl (batch : List Descriptor) :
    ∀ (st : Bool) (svs : List Entry),
      batch.foldl addStep (st, svs)
        = (st && batch.all (fun d => (resolveDescriptor d).isSome),
           svs ++ batch.filterMap resolveDescriptor) := by
  induction batch with
  | nil => intro st svs; simp
  | cons d rest ih =>
      intro st svs
      cases d with
      | preloaded e =>
          simp [addStep, resolveDescriptor, ih, List.filterMap_cons]
      | url r =>
          cases r <;>
            simp [addStep, resolveDescriptor, ih, List.filterMap_cons]
      | invalid =>
          simp [addStep, resolveDescriptor, ih, List.filterMap_cons]

/-- The asynchronous handler agrees with the blocking handler on the fixed
per-server outcome, whichever scheduling mode the server's asset selects. -/
theorem handlerasync_eq_handler (s : Server) :
    _notifyhandlerasync s = _notifyhandler s := by
  unfold _notifyhandlerasync _notifyhandler
  cases s.outcome <;> cases h : s.async_mode <;> simp [h]

/-- Looking up the key just assigned returns the assigned value. -/
theorem cmLookup_cmSet_self (m : List (NotifyFormat × String))
    (f : NotifyFormat) (v : String) :
    cmLookup (cmSet m f v) f = some v := by
  induction m with
  | nil => simp [cmSet, cmLookup]
  | cons p rest ih =>
      obtain ⟨g, w⟩ := p
      by_cases h : g = f <;> simp [cmSet, cmLookup, h, ih]

/-- Assigning one key leaves every other key's binding unchanged. -/
theorem cmLookup_cmSet_ne (m : List (NotifyFormat × String))
    (f g : NotifyFormat) (v : String) (h : g ≠ f) :
    cmLookup (cmSet m f v) g = cmLookup m g := by
  induction m with
  | nil => simp [cmSet, cmLookup, Ne.symm h]
  | cons p rest ih =>
      obtain ⟨k, w⟩ := p
      by_cases hk : k = f <;> simp [cmSet, cmLookup, hk, Ne.symm h, ih]

/-- After the seeding stage the entry for the requested format is present:
the previously cached value if there was one, the converted body
otherwise. -/
theorem cmLookup_convStage_self (md : String → String) (body : String)
    (bf : Option NotifyFormat) (cmap : List (NotifyFormat × String))
    (fmt : NotifyFormat) :
    cmLookup (convStage md body bf cmap fmt) fmt
      = some ((cmLookup cmap fmt).getD (convertBody md bf fmt body)) := by
  unfold convStage
  cases h : cmLookup cmap fmt with
  | none => simp [cmLookup_cmSet_self]
  | some v => simp [h]

/-- The seeding stage leaves other formats' bindings unchanged. -/
theorem cmLookup_convStage_ne (md : String → String) (body : String)
    (bf : Option NotifyFormat) (cmap : List (NotifyFormat × String))
    (fmt g : NotifyFormat) (h : g ≠ fmt) :
    cmLookup (convStage md body bf cmap fmt) g = cmLookup cmap g := by
  unfold convStage
  split
  · exact cmLookup_cmSet_ne _ _ _ _ h
  · rfl

/-- With escape interpretation on, the escape stage rebinds the requested
format to the decoded cached value. -/
theorem cmLookup_escStage_true_self (cmap : List (NotifyFormat × String))
    (fmt : NotifyFormat) :
    cmLookup (escStage true cmap fmt) fmt
      = some (decode ((cmLookup cmap fmt).getD "")) := by
  unfold escStage
  simp [cmLookup_cmSet_self]

/-- With escape interpretation on, the escape stage leaves other formats'
bindings unchanged. -/
theorem cmLookup_escStage_true_ne (cmap : List (NotifyFormat × String))
    (fmt g : NotifyFormat) (h : g ≠ fmt) :
    cmLookup (escStage true cmap fmt) g = cmLookup cmap g := by
  unfold escStage
  simp [cmLookup_cmSet_ne _ _ _ _ h]

/-- One-step unfolding of the `_notifyall` loop. -/
theorem notifyLoop_cons (md : String → String) (body : String)
    (bf : Option NotifyFormat) (ie : Bool) (nt : String) (s : Server)
    (rest : List Server) (cmap : List (NotifyFormat × String)) (title : String) :
    notifyLoop md body bf ie nt (s :: rest) cmap title
      = { server := s,
          body := (cmLookup (escStage ie (convStage md body bf cmap s.notify_format)
              s.notify_format) s.notify_format).getD "",
          title := if ie ∧ title ≠ "" then decode title else title,
          notify_type := nt }
        :: notifyLoop md body bf ie nt rest
            (escStage ie (convStage md body bf cmap s.notify_format) s.notify_format)
            (if ie ∧ title ≠ "" then decode title else title) := rfl

/-- One-step unfolding of `loopSpec`. -/
theorem loopSpec_cons (conv : NotifyFormat → String) (nt : String)
    (m : NotifyFormat → Nat) (t : String) (s : Server) (rest : List Server) :
    loopSpec conv nt m t (s :: rest)
      = { server := s,
          body := decodeN (m s.notify_format + 1) (conv s.notify_format),
          title := if t ≠ "" then decode t else t,
          notify_type := nt }
        :: loopSpec conv nt
            (fun f => if f = s.notify_format then m s.notify_format + 1 else m f)
            (if t ≠ "" then decode t else t) rest := rfl

/-- A successful `_notifyall` produced exactly the loop over the matched
servers, seeded with the empty conversion cache. -/
theorem notifyall_ok_inv (md : String → String) (c : List Entry)
    (body title nt : String) (bf : Option NotifyFormat) (tag : TagExpr)
    (ie : Bool) (calls : List Call)
    (h : _notifyall md c body title nt bf tag ie = Except.ok calls) :
    calls = notifyLoop md body bf ie nt (find c tag) [] title := by
  unfold _notifyall at h
  split at h
  · exact absurd h (by simp)
  · split at h
    · exact absurd h (by simp)
    · injection h with h2
      exact h2.symm

/-- With escape interpretation off, every produced call carries the
converted body for its server's declared format (the cache is transparent)
and the unmodified title, provided every cached entry is already a converted
body. -/
theorem notifyLoop_no_escape (md : String → String) (body : String)
    (bf : Option NotifyFormat) (nt : String) :
    ∀ (matched : List Server) (cmap : List (NotifyFormat × String)) (title : String),
      (∀ f v, cmLookup cmap f = some v → v = convertBody md bf f body) →
      ∀ call ∈ notifyLoop md body bf false nt matched cmap title,
        call.body = convertBody md bf call.server.notify_format body
        ∧ call.title = title := by
  intro matched
  induction matched with
  | nil =>
      intro cmap title hP call hc
      simp [notifyLoop] at hc
  | cons s rest ih =>
      intro cmap title hP call hc
      rw [notifyLoop_cons] at hc
      have hstage : escStage false (convStage md body bf cmap s.notify_format)
          s.notify_format = convStage md body bf cmap s.notify_format := rfl
      have hself : cmLookup (convStage md body bf cmap s.notify_format)
          s.notify_format = some (convertBody md bf s.notify_format body) := by
        rw [cmLookup_convStage_self]
        cases hv : cmLookup cmap s.notify_format with
        | none => rfl
        | some v => rw [Option.getD_some, hP s.notify_format v hv]
      have hP2 : ∀ f v,
          cmLookup (escStage false (convStage md body bf cmap s.notify_format)
            s.notify_format) f = some v → v = convertBody md bf f body := by
        intro f v hv
        rw [hstage] at hv
        by_cases hf : f = s.notify_format
        · subst hf
          rw [hself] at hv
          exact (Option.some_inj.mp hv).symm
        · rw [cmLookup_convStage_ne _ _ _ _ _ _ hf] at hv
          exact hP f v hv
      rcases List.mem_cons.mp hc with heq | htail
      · subst heq
        refine ⟨?_, ?_⟩
        · show (cmLookup (escStage false
              (convStage md body bf cmap s.notify_format) s.notify_format)
              s.notify_format).getD "" = _
          rw [hstage, hself]
          rfl
        · show (if (false : Bool) ∧ title ≠ "" then decode title else title)
              = title
          simp
      · exact ih _ _ hP2 call htail

/-- With escape interpretation on, the `_notifyall` loop computes exactly
`loopSpec`: each server's call carries the converted body for its format
decoded once per same-format server processed so far, and the title decoded
once per processed server, provided the cache matches the running count
`m`. -/
theorem notifyLoop_escape_spec (md : String → String) (body : String)
    (bf : Option NotifyFormat) (nt : String) :
    ∀ (matched : List Server) (m : NotifyFormat → Nat)
      (cmap : List (NotifyFormat × String)) (t : String),
      (∀ f, cmLookup cmap f
          = match m f with
            | 0 => none
            | k + 1 => some (decodeN (k + 1) (convertBody md bf f body))) →
      notifyLoop md body bf true nt matched cmap t
        = loopSpec (fun f => convertBody md bf f body) nt m t matched := by
  intro matched
  induction matched with
  | nil => intro m cmap t hm; rfl
  | cons s rest ih =>
      intro m cmap t hm
      rw [notifyLoop_cons, loopSpec_cons]
      have hbase : (cmLookup cmap s.notify_format).getD
            (convertBody md bf s.notify_format body)
          = decodeN (m s.notify_format)
              (convertBody md bf s.notify_format body) := by
        rw [hm s.notify_format]
        cases hk : m s.notify_format with
        | zero => rfl
        | succ k => rfl
      have hbody : cmLookup (escStage true
            (convStage md body bf cmap s.notify_format) s.notify_format)
            s.notify_format
          = some (decodeN (m s.notify_format + 1)
              (convertBody md bf s.notify_format body)) := by
        rw [cmLookup_escStage_true_self, cmLookup_convStage_self, hbase]
        rfl
      have hnext : ∀ f,
          cmLookup (escStage true (convStage md body bf cmap s.notify_format)
            s.notify_format) f
          = match (if f = s.notify_format then m s.notify_format + 1 else m f) with
            | 0 => none
            | k + 1 => some (decodeN (k + 1) (convertBody md bf f body)) := by
        intro f
        by_cases hf : f = s.notify_format
        · subst hf
          rw [hbody, if_pos rfl]
        · rw [cmLookup_escStage_true_ne _ _ _ hf,
            cmLookup_convStage_ne _ _ _ _ _ _ hf, if_neg hf]
          exact hm f
      rw [hbody]
      simp only [Option.getD_some, eq_self_iff_true, true_and]
      exact congrArg (List.cons _) (ih _ _ _ hnext)

/-! ## Claims -/

/-- C1: for every dispatch passing the preconditions (non-empty expanded
collection, some content), `notify` returns `None` when zero servers matched
the tag expression, `False` when at least one matched server's send returned
`False`, and `True` only when every matched server's send returned `True`. -/
theorem c1_notify_tristate (md : String → String) (c : List Entry)
    (body title nt : String) (bf : Option NotifyFormat) (tag : TagExpr) (ie : Bool)
    (h1 : collLen c ≠ 0) (h2 : title ≠ "" ∨ body ≠ "") :
    (find c tag = [] → notify md c body title nt bf tag ie = none)
    ∧ ((∃ s ∈ find c tag, s.outcome = some false) →
        notify md c body title nt bf tag ie = some false)
    ∧ (notify md c body title nt bf tag ie = some true →
        ∀ s ∈ find c tag, s.outcome = some true) := by
  have h2' : ¬(title = "" ∧ body = "") := by tauto
  have hchar := notify_eq_aggregate md c body title nt bf tag ie h1 h2'
  refine ⟨?_, ?_, ?_⟩
  · intro h
    rw [hchar, if_pos h]
  · rintro ⟨s, hs, hout⟩
    have hne : find c tag ≠ [] := by
      intro h
      rw [h] at hs
      exact absurd hs (List.not_mem_nil s)
    rw [hchar, if_neg hne]
    have hfalse : (find c tag).all _notifyhandler = false := by
      rw [List.all_eq_false]
      refine ⟨s, hs, ?_⟩
      simp [_notifyhandler, hout]
    rw [hfalse]
  · intro h s hs
    by_cases hne : find c tag = []
    · rw [hne] at hs
      exact absurd hs (List.not_mem_nil s)
    · rw [hchar, if_neg hne] at h
      have hall : (find c tag).all _notifyhandler = true := by
        injection h
      exact (notifyhandler_eq_true s).mp (List.all_eq_true.mp hall s hs)

/-- C1 witness: a two-server collection where one send returns `False`
aggregates to `False`. -/
theorem c1_notify_tristate_witness :
    notify id [Entry.direct svA,
      Entry.direct { svA with outcome := some false }] "b" "" "info"
      none TagExpr.matchAll false = some false :=
  (c1_notify_tristate id _ "b" "" "info" none TagExpr.matchAll false
      (by decide) (Or.inr (by decide))).2.1
    ⟨{ svA with outcome := some false }, by decide, rfl⟩

/-- C2: `notify` on a collection expanding to zero servers, or with both
body and title empty, raises `TypeError` inside `_notifyall` before any call
is produced — so zero servers are invoked — and the call fails with
`False`. -/
theorem c2_precondition_failures (md : String → String) (c : List Entry)
    (body title nt : String) (bf : Option NotifyFormat) (tag : TagExpr) (ie : Bool)
    (h : collLen c = 0 ∨ (title = "" ∧ body = "")) :
    _notifyall md c body title nt bf tag ie = Except.error ()
    ∧ notify md c body title nt bf tag ie = some false := by
  have herr : _notifyall md c body title nt bf tag ie = Except.error () := by
    unfold _notifyall
    rcases h with h | h
    · rw [if_pos h]
    · by_cases hl : collLen c = 0
      · rw [if_pos hl]
      · rw [if_neg hl, if_pos h]
  refine ⟨herr, ?_⟩
  unfold notify
  rw [herr]

/-- C2 witness: the empty collection and the empty-content dispatch both
fail with `False`. -/
theorem c2_precondition_failures_witness :
    notify id [] "b" "t" "info" none TagExpr.matchAll false = some false
    ∧ notify id [Entry.direct svA] "" "" "info" none TagExpr.matchAll false
        = some false :=
  ⟨(c2_precondition_failures id [] "b" "t" "info" none TagExpr.matchAll false
      (Or.inl rfl)).2,
   (c2_precondition_failures id [Entry.direct svA] "" "" "info" none
      TagExpr.matchAll false (Or.inr ⟨rfl, rfl⟩)).2⟩

/-- C3: for the collection [container with 0 servers, container with 2
servers, direct server]: `__len__` is 3, indices 0 and 1 resolve into the
second container in expansion order, index 2 resolves to the direct server
(the empty container contributing no offset), and every index ≥ 3 exhausts
the walk and raises `IndexError`. -/
theorem c3_flattened_index_space (s0 s1 t : Server) (i : Int) (hi : 3 ≤ i) :
    collLen [Entry.config [], Entry.config [s0, s1], Entry.direct t] = 3
    ∧ getitem [Entry.config [], Entry.config [s0, s1], Entry.direct t] 0 = some s0
    ∧ getitem [Entry.config [], Entry.config [s0, s1], Entry.direct t] 1 = some s1
    ∧ getitem [Entry.config [], Entry.config [s0, s1], Entry.direct t] 2 = some t
    ∧ getitem [Entry.config [], Entry.config [s0, s1], Entry.direct t] i = none := by
  refine ⟨rfl, rfl, rfl, rfl, ?_⟩
  show getitemAux _ i (-1) = none
  simp only [getitemAux, List.length_nil, List.length_cons, lt_irrefl]
  norm_num
  rw [if_neg (by omega), if_neg (by omega)]

/-- C3 witness: the indexing facts at concrete servers and at index 5. -/
theorem c3_flattened_index_space_witness :
    getitem [Entry.config [], Entry.config [svA, svB], Entry.direct svHtml] 1
      = some svB
    ∧ getitem [Entry.config [], Entry.config [svA, svB], Entry.direct svHtml] 5
      = none :=
  ⟨(c3_flattened_index_space svA svB svHtml 5 (by omega)).2.2.1,
   (c3_flattened_index_space svA svB svHtml 5 (by omega)).2.2.2.2⟩

/-- C4: `find` yields exactly the servers of the flattened collection whose
tag set satisfies the tag expression (some OR-group wholly contained in the
tag set); the match-all sentinel yields every server, empty tag sets
included; a non-sentinel expression never yields a server with an empty tag
set. -/
theorem c4_find_tag_filtering (c : List Entry) (e : TagExpr)
    (gs : List (String × List String)) :
    (find c e = (collIter c).filter (fun s => is_exclusive_match e s.tags))
    ∧ (find c TagExpr.matchAll = collIter c)
    ∧ (∀ s ∈ find c (TagExpr.expr gs), s.tags ≠ []) := by
  refine ⟨find_eq_filter c e, ?_, ?_⟩
  · rw [find_eq_filter]
    simp [is_exclusive_match]
  · intro s hs htags
    rw [find_eq_filter] at hs
    have hmatch := List.of_mem_filter hs
    rw [htags] at hmatch
    simp [is_exclusive_match, groupMatch] at hmatch

/-- C4 witness: on a concrete mixed collection the sentinel yields both
servers (one with an empty tag set) and a single-tag expression yields only
the tagged one, whose tag set is non-empty. -/
theorem c4_find_tag_filtering_witness :
    find [Entry.direct svA, Entry.config [svB]] TagExpr.matchAll = [svA, svB]
    ∧ find [Entry.direct svA, Entry.config [svB]]
        (TagExpr.expr [("x", [])]) = [svA]
    ∧ svA.tags ≠ [] :=
  ⟨(c4_find_tag_filtering [Entry.direct svA, Entry.config [svB]]
      TagExpr.matchAll [("x", [])]).2.1.trans (by decide),
   by decide,
   (c4_find_tag_filtering [Entry.direct svA, Entry.config [svB]]
      TagExpr.matchAll [("x", [])]).2.2 svA (by decide)⟩

/-- C8: the sequential strategy (`notify`, blocking handler, filter order)
and the concurrent strategy (`async_notify`, coroutine per server, gathered
and aggregated) return the same tri-state result for every collection,
message, tag expression and fixed per-server outcomes. -/
theorem c8_strategies_agree (md : String → String) (c : List Entry)
    (body title nt : String) (bf : Option NotifyFormat) (tag : TagExpr) (ie : Bool) :
    notify md c body title nt bf tag ie
      = async_notify md c body title nt bf tag ie := by
  unfold notify async_notify
  cases h : _notifyall md c body title nt bf tag ie with
  | error e => rfl
  | ok calls =>
      show (if 0 < calls.length then
              some (calls.all fun call => _notifyhandler call.server)
            else none)
          = (if 0 < calls.length then
              some (asyncioNotify
                (calls.map fun call => _notifyhandlerasync call.server))
            else none)
      by_cases hpos : 0 < calls.length
      · rw [if_pos hpos, if_pos hpos]
        unfold asyncioNotify
        rw [all_comp_map]
        simp [handlerasync_eq_handler]
      · rw [if_neg hpos, if_neg hpos]

/-- C9: across one `add` batch, every malformed / unknown-schema / invalid
descriptor flips the return status to `False` and contributes no entry,
while every descriptor that resolves is still appended, in order: failures
are soft and do not stop the batch. -/
theorem c9_add_soft_failures (servers : List Entry) (batch : List Descriptor) :
    ((addServers servers batch).2 = servers ++ batch.filterMap resolveDescriptor)
    ∧ ((addServers servers batch).1 = false ↔
        ∃ d ∈ batch, resolveDescriptor d = none) := by
  unfold addServers
  rw [addStep_foldl]
  refine ⟨rfl, ?_⟩
  simp [List.all_eq_false, Option.isSome_iff_ne_none]

/-- C9 witness: a batch with one bad descriptor between two good ones
returns `False` yet appends both good entries. -/
theorem c9_add_soft_failures_witness :
    (addServers [] [Descriptor.url (some svA), Descriptor.url none,
        Descriptor.preloaded (Entry.config [svB])]).2
      = [Entry.direct svA, Entry.config [svB]]
    ∧ (addServers [] [Descriptor.url (some svA), Descriptor.url none,
        Descriptor.preloaded (Entry.config [svB])]).1 = false :=
  ⟨((c9_add_soft_failures [] _).1).trans (by decide),
   ((c9_add_soft_failures [] _).2).mpr ⟨Descriptor.url none, by decide, rfl⟩⟩

/-- C10: a negative index on a collection whose first entry is a non-empty
container resolves inside that container by Python negative indexing —
`get(-1)` returns and `pop(-1)` removes the container's last server —
whereas on a collection of only direct servers every negative index raises
`IndexError`. -/
theorem c10_negative_index (s0 s1 t : Server) :
    (getitem [Entry.config [s0, s1], Entry.direct t] (-1) = some s1)
    ∧ (pop [Entry.config [s0, s1], Entry.direct t] (-1)
        = some (s1, [Entry.config [s0], Entry.direct t]))
    ∧ (∀ (ss : List Server) (i : Int), i < 0 →
        getitem (ss.map Entry.direct) i = none)
    ∧ (∀ (ss : List Server) (i : Int), i < 0 →
        pop (ss.map Entry.direct) i = none) := by
  refine ⟨rfl, rfl, ?_, ?_⟩
  · intro ss i hi
    exact getitemAux_direct_neg ss (-1) i hi (by omega)
  · intro ss i hi
    exact popAux_direct_neg ss (-1) i hi (by omega)

/-- C5 counterexample: a real tab character is NOT mapped to three `&nbsp;`.
The `re_map` key is the raw string backslash-t, so the dispatched body keeps
the tab unchanged, while the table the claim states (the spec-side
`specTextToHtml`, tab to three `&nbsp;`) would convert it. -/
theorem c5_counterexample_tab :
    _notifyall id [Entry.direct svHtml] "a\tb" "t" "info"
        (some NotifyFormat.text) TagExpr.matchAll false
      = Except.ok [Call.mk svHtml "a\tb" "t" "info"]
    ∧ specTextToHtml "a\tb" = "a&nbsp;&nbsp;&nbsp;b"
    ∧ ("a\tb" : String) ≠ "a&nbsp;&nbsp;&nbsp;b" := by
  refine ⟨rfl, by decide, by decide⟩

/-- C5 (amended): in a dispatch with source body format TEXT and escape
interpretation off, every call to a target whose declared format is HTML
carries the `textToHtml` result when the substitution succeeds; the
single-pass table maps `&` to `&amp;`, each space to `&nbsp;`, the literal
two-character sequence backslash-t (the raw-string key) to three `&nbsp;`,
the sequence backslash-T (matched case-insensitively) to the `KeyError`
raise, `>` to `&gt;` and `<` to `&lt;`, keeping every other character —
a real tab character included — and the pass is followed by replacing each
`\r*\n` line terminator with `<br/>` and CRLF. -/
theorem c5_amended_text_to_html (md : String → String) (c : List Entry)
    (body title nt : String) (tag : TagExpr) (calls : List Call)
    (h : _notifyall md c body title nt (some NotifyFormat.text) tag false
        = Except.ok calls) :
    (∀ call ∈ calls, call.server.notify_format = NotifyFormat.html →
        ∀ converted, textToHtml body = some converted → call.body = converted)
    ∧ (∀ l, t2hScan ('&' :: l)
        = Option.map (fun r => "&amp;".data ++ r) (t2hScan l))
    ∧ (∀ l, t2hScan (' ' :: l)
        = Option.map (fun r => "&nbsp;".data ++ r) (t2hScan l))
    ∧ (∀ l, t2hScan ('\\' :: 't' :: l)
        = Option.map (fun r => "&nbsp;&nbsp;&nbsp;".data ++ r) (t2hScan l))
    ∧ (∀ l, t2hScan ('\\' :: 'T' :: l) = none)
    ∧ (∀ l, t2hScan ('\t' :: l) = Option.map (fun r => '\t' :: r) (t2hScan l))
    ∧ (∀ l, t2hScan ('>' :: l)
        = Option.map (fun r => "&gt;".data ++ r) (t2hScan l))
    ∧ (∀ l, t2hScan ('<' :: l)
        = Option.map (fun r => "&lt;".data ++ r) (t2hScan l))
    ∧ (∀ (ch : Char) (l : List Char), ch ∉ ['&', ' ', '>', '<', '\\'] →
        t2hScan (ch :: l) = Option.map (fun r => ch :: r) (t2hScan l))
    ∧ (∀ l : List Char,
        replaceNewlines ('\n' :: l) = "<br/>\r\n".data ++ replaceNewlines l)
    ∧ (∀ (b converted0 : List Char), t2hScan b = some converted0 →
        textToHtml (String.mk b)
          = some (String.mk (replaceNewlines converted0))) := by
  refine ⟨?_, fun l => by cases l <;> rfl, fun l => by cases l <;> rfl,
    fun l => rfl, fun l => rfl, fun l => by cases l <;> rfl,
    fun l => by cases l <;> rfl, fun l => by cases l <;> rfl, ?_, ?_, ?_⟩
  · intro call hc hfmt converted hconv
    have hcalls := notifyall_ok_inv md c body title nt
      (some NotifyFormat.text) tag false calls h
    rw [hcalls] at hc
    have hbody := notifyLoop_no_escape md body (some NotifyFormat.text) nt
      (find c tag) [] title
      (by intro f v hv; simp [cmLookup] at hv) call hc
    rw [hbody.1, hfmt]
    simp [convertBody, hconv]
  · intro ch l hch
    simp only [List.mem_cons, List.not_mem_nil, or_false, not_or] at hch
    obtain ⟨h1, h2, h3, h4, h5⟩ := hch
    cases l with
    | nil => simp [t2hScan, h1, h2, h3, h4, h5]
    | cons c2 rest => simp [t2hScan, h1, h2, h3, h4, h5]
  · intro l
    simp [replaceNewlines]
  · intro b converted0 hb
    unfold textToHtml
    rw [show (String.mk b).data = b from rfl, hb]
    rfl

/-- C5 witness: a TEXT dispatch to one HTML-format target converts a body
holding the literal backslash-t sequence and a space. -/
theorem c5_amended_text_to_html_witness :
    Call.body (Call.mk svHtml "a&nbsp;&nbsp;&nbsp;b" "t" "info")
      = "a&nbsp;&nbsp;&nbsp;b"
    ∧ textToHtml "a\\tb" = some "a&nbsp;&nbsp;&nbsp;b"
    ∧ _notifyall id [Entry.direct svHtml] "a\\tb" "t" "info"
        (some NotifyFormat.text) TagExpr.matchAll false
      = Except.ok [Call.mk svHtml "a&nbsp;&nbsp;&nbsp;b" "t" "info"] := by
  have h : _notifyall id [Entry.direct svHtml] "a\\tb" "t" "info"
      (some NotifyFormat.text) TagExpr.matchAll false
      = Except.ok [Call.mk svHtml "a&nbsp;&nbsp;&nbsp;b" "t" "info"] := rfl
  exact ⟨(c5_amended_text_to_html id [Entry.direct svHtml] "a\\tb" "t"
      "info" TagExpr.matchAll _ h).1 _ (by decide) (by decide)
      "a&nbsp;&nbsp;&nbsp;b" (by decide), by decide, h⟩

/-- C6 counterexample: with escape interpretation on, two matched targets
sharing the same declared format do NOT receive an identical adapted body:
the escape block re-decodes the cached entry on every iteration, so with
body `\\n` (backslash, backslash, `n`) the first target receives `\n`
(backslash, `n`) and the second the decoded newline. -/
theorem c6_counterexample_shared_format :
    _notifyall id [Entry.direct svA, Entry.direct svA] "\\\\n" "" "info"
        none TagExpr.matchAll true
      = Except.ok
          [Call.mk svA "\\n" "" "info",
           Call.mk svA "\n" "" "info"]
    ∧ ("\\n" : String) ≠ "\n" := by
  exact ⟨rfl, by decide⟩

/-- C6 amended: the body is converted at most once per distinct target
declared format per dispatch (the cached entry is reused, never
re-converted); with escape interpretation off, every matched target sharing
a declared format receives the identical converted body and the unmodified
title; with escape interpretation on, escape decoding is applied after
conversion but once more on every matched target, so the n-th matched
target of a format receives the converted body decoded n times and a title
decoded once per preceding non-empty-title iteration, as computed by
`loopSpec`. -/
theorem c6_amended_cache_and_escape (md : String → String) (c : List Entry)
    (body title nt : String) (bf : Option NotifyFormat) (tag : TagExpr)
    (h1 : collLen c ≠ 0) (h2 : title ≠ "" ∨ body ≠ "") :
    (_notifyall md c body title nt bf tag true
      = Except.ok (loopSpec (fun f => convertBody md bf f body) nt
          (fun _ => 0) title (find c tag)))
    ∧ (∀ calls, _notifyall md c body title nt bf tag false = Except.ok calls →
        ∀ call ∈ calls,
          call.body = convertBody md bf call.server.notify_format body
          ∧ call.title = title) := by
  have h2' : ¬(title = "" ∧ body = "") := by tauto
  constructor
  · unfold _notifyall
    rw [if_neg h1, if_neg h2']
    exact congrArg Except.ok
      (notifyLoop_escape_spec md body bf nt (find c tag) (fun _ => 0) []
        title (fun f => rfl))
  · intro calls h call hc
    have hcalls := notifyall_ok_inv md c body title nt bf tag false calls h
    rw [hcalls] at hc
    exact notifyLoop_no_escape md body bf nt (find c tag) [] title
      (by intro f v hv; simp [cmLookup] at hv) call hc

/-- C6 amended witness: the escape-on dispatch of the counterexample input
equals its `loopSpec` description. -/
theorem c6_amended_cache_and_escape_witness :
    _notifyall id [Entry.direct svA, Entry.direct svA] "\\\\n" "" "info"
        none TagExpr.matchAll true
      = Except.ok (loopSpec
          (fun f => convertBody id none f "\\\\n") "info" (fun _ => 0) ""
          (find [Entry.direct svA, Entry.direct svA] TagExpr.matchAll)) :=
  (c6_amended_cache_and_escape id [Entry.direct svA, Entry.direct svA]
      "\\\\n" "" "info" none TagExpr.matchAll (by decide)
      (Or.inr (by decide))).1

/-- C7: every server whose send raises is recorded as `false` by the handler
without aborting the fan-out: a successful `_notifyall` yields exactly one
call per matched server in order, and `notify` aggregates the handler over
all of them, so every other matched server is still invoked. -/
theorem c7_fault_isolation (md : String → String) (c : List Entry)
    (body title nt : String) (bf : Option NotifyFormat) (tag : TagExpr)
    (ie : Bool) (calls : List Call)
    (h : _notifyall md c body title nt bf tag ie = Except.ok calls) :
    (calls.map Call.server = find c tag)
    ∧ (∀ s : Server, s.outcome = none → _notifyhandler s = false)
    ∧ (notify md c body title nt bf tag ie
        = if calls = [] then none
          else some (calls.all (fun call => _notifyhandler call.server))) := by
  have hcalls := notifyall_ok_inv md c body title nt bf tag ie calls h
  refine ⟨?_, ?_, ?_⟩
  · rw [hcalls]
    exact notifyLoop_map_server md body bf ie nt (find c tag) [] title
  · intro s hs
    simp [_notifyhandler, hs]
  · unfold notify
    rw [h]
    show (if 0 < calls.length then
            some (calls.all fun call => _notifyhandler call.server)
          else none) = _
    by_cases he : calls = []
    · subst he
      simp
    · rw [if_pos (List.length_pos.mpr he), if_neg he]

/-- C7 witness: with one faulting server among two matched, both are still
called and the dispatch aggregates to `False`. -/
theorem c7_fault_isolation_witness :
    ([Call.mk svA "b" "" "info",
      Call.mk svFault "b" "" "info"].map
        Call.server
      = find [Entry.direct svA, Entry.direct svFault] TagExpr.matchAll)
    ∧ notify id [Entry.direct svA, Entry.direct svFault] "b" "" "info" none
        TagExpr.matchAll false = some false := by
  have h : _notifyall id [Entry.direct svA, Entry.direct svFault] "b" ""
      "info" none TagExpr.matchAll false
      = Except.ok
          [Call.mk svA "b" "" "info",
           Call.mk svFault "b" "" "info"] := rfl
  have hthm := c7_fault_isolation id [Entry.direct svA, Entry.direct svFault]
    "b" "" "info" none TagExpr.matchAll false _ h
  refine ⟨hthm.1, ?_⟩
  rw [hthm.2.2]
  decide

/-- C10 witness: the container case returns the last contained server while
the all-direct collection raises on the same index. -/
theorem c10_negative_index_witness :
    getitem [Entry.config [svA, svB], Entry.direct svHtml] (-1) = some svB
    ∧ getitem [Entry.direct svA, Entry.direct svB] (-1) = none :=
  ⟨(c10_negative_index svA svB svHtml).1,
   by
    have h := (c10_negative_index svA svB svHtml).2.2.1 [svA, svB] (-1)
      (by omega)
    simpa using h⟩

end Apprise
